import Mathlib

/-!
Shallow embedding of the core logic of the chat-test-task repository:
the multi-layer cache of `src/lib/advancedCaching.ts`, the session search
engine (`useMessageSearch` in `src/types/chat.ts`) and the session
persistence hook (`useMessagePersistence` in `src/types/chat.ts`).

Modelling conventions: JS `Date` timestamps and integer quantities are
`Int` (millisecond epochs); JS `number` relevance scores built from the
literals 1.2, 1.5, 1.1 are modelled exactly in `ℚ` (the claims under
verification concern which factors and summands enter the computation,
not float rounding); strings that the search engine processes
character-by-character are modelled as `List Char`; JS `Map` and
`localStorage` are association lists in insertion order; the wall-clock
(`Date.now()`, `performance.now()`) enters every operation as an explicit
`now` parameter.
-/

namespace ChatModel

/-- Strings processed characterwise by the search engine. -/
abbrev Str := List Char

/-- Mirror of `ChatMessageType` (`src/types/chat.ts`): `timestamp` is the
epoch-ms value of the JS `Date`. -/
structure ChatMessageType where
  id : String
  message : Str
  isAI : Bool
  sender : Str
  timestamp : Int
  sessionId : Option String := none
deriving DecidableEq

/-- Mirror of `ChatSession` (`src/types/chat.ts`). -/
structure ChatSession where
  id : String
  title : Str
  messages : List ChatMessageType
  createdAt : Int
  updatedAt : Int
deriving DecidableEq

end ChatModel

namespace useMessageSearch

open ChatModel

/-- ASCII word characters, the `\w` class of the JS regexes in
`tokenizeText` (letters, digits and the underscore). -/
def isWordChar (c : Char) : Bool :=
  (('a' ≤ c && c ≤ 'z') || ('A' ≤ c && c ≤ 'Z') || ('0' ≤ c && c ≤ '9') || c = '_')

/-- Whitespace as matched by `\s` (the inputs of interest are ASCII). -/
def isWs (c : Char) : Bool :=
  c = ' ' || c = '\t' || c = '\n' || c = '\r'

/-- JS `text.replace(/[^\w\s]/g, " ")`: any character that is neither a
word character nor whitespace becomes a space. -/
def replaceNonWord (s : Str) : Str :=
  s.map (fun c => if isWordChar c || isWs c then c else ' ')

/-- JS `s.split(/\s+/)`: split on maximal whitespace runs; a leading or
trailing run produces an empty field, exactly as in JS. The accumulator is
`none` while consuming a whitespace run (so further whitespace extends the
same separator) and `some acc` while inside a field. -/
def splitWsAux : Str → Option Str → List Str
  | [], none => [[]]
  | [], some acc => [acc.reverse]
  | c :: rest, none =>
    if isWs c then splitWsAux rest none
    else splitWsAux rest (some [c])
  | c :: rest, some acc =>
    if isWs c then acc.reverse :: splitWsAux rest none
    else splitWsAux rest (some (c :: acc))

def splitWs (s : Str) : List Str := splitWsAux s (some [])

/-- JS `String.prototype.toLowerCase` on the ASCII inputs of interest. -/
def lowerStr (s : Str) : Str := s.map Char.toLower

/-- Mirror of `tokenizeText` (`useMessageSearch`): lowercase, replace
non-word characters by spaces, split on whitespace, keep tokens of
length > 2. -/
def tokenizeText (text : Str) : List Str :=
  ((splitWs (replaceNonWord (lowerStr text))).filter (fun token => token.length > 2))

/-- JS `s.includes(t)`: `t` occurs as a contiguous substring of `s`
(always true for empty `t`). -/
def containsSub (s t : Str) : Bool :=
  (s.tails).any (fun suf => t.isPrefixOf suf)

/-- Mirror of `calculateRelevanceScore` (`useMessageSearch`), accumulating
the score in the order of the source: +10 per query token that is a
substring of the lowercased message, +5 per message token containing each
matched term, then the <100-char, <50-char, user-author and recency
multipliers in sequence. -/
def calculateRelevanceScore (now : Int) (message : ChatMessageType)
    (queryTokens matchedTerms : List Str) : ℚ :=
  let messageTokens := tokenizeText message.message
  let score : ℚ := 0
  let score := queryTokens.foldl
    (fun s token => if containsSub (lowerStr message.message) token then s + 10 else s) score
  let score := matchedTerms.foldl
    (fun s term =>
      s + ((messageTokens.filter (fun token => containsSub token term)).length : ℚ) * 5) score
  let score := if message.message.length < 100 then score * (1.2 : ℚ) else score
  let score := if message.message.length < 50 then score * (1.5 : ℚ) else score
  let score := if !message.isAI then score * (1.1 : ℚ) else score
  let daysSinceMessage : ℚ := ((now - message.timestamp : Int) : ℚ) / (1000 * 60 * 60 * 24)
  let score := if daysSinceMessage < 7 then score * (1.1 : ℚ) else score
  score

/-- Mirror of `getMessageContext` (`useMessageSearch`): up to
`contextSize` messages before and after, clipped at session boundaries
(`slice(max(0, i-2), i)` and `slice(i+1, min(len, i+3))`). -/
def getMessageContext (session : ChatSession) (messageIndex : Nat)
    (contextSize : Nat := 2) : List ChatMessageType × List ChatMessageType :=
  let before := (session.messages.drop (messageIndex - contextSize)).take
    (messageIndex - (messageIndex - contextSize))
  let after := (session.messages.drop (messageIndex + 1)).take
    (min session.messages.length (messageIndex + 1 + contextSize) - (messageIndex + 1))
  (before, after)

inductive SenderType where
  | all | user | ai
deriving DecidableEq

inductive SortKey where
  | relevance | date | length
deriving DecidableEq

inductive SortOrder where
  | asc | desc
deriving DecidableEq

/-- Mirror of `SearchFilters` (`useMessageSearch`); optional fields are
`none` when absent in JS. -/
structure SearchFilters where
  query : Str
  dateRange : Option (Int × Int) := none
  senderType : Option SenderType := none
  messageLength : Option (Nat × Nat) := none
  sortBy : Option SortKey := none
  sortOrder : Option SortOrder := none
deriving DecidableEq

/-- Mirror of `SearchResult` (`useMessageSearch`). -/
structure SearchResult where
  session : ChatSession
  message : ChatMessageType
  relevanceScore : ℚ
  matchedTerms : List Str
  context : List ChatMessageType × List ChatMessageType
deriving DecidableEq

/-- Matched-terms collection of `executeSearch`: for every query token and
every message token, push the query token on an exact match, or on a
containment ("fuzzy") match whose length difference is at most 2. -/
def findMatchedTerms (queryTokens messageTokens : List Str) : List Str :=
  queryTokens.foldl (fun acc queryToken =>
    messageTokens.foldl (fun acc2 messageToken =>
      if messageToken = queryToken then acc2 ++ [queryToken]
      else if (containsSub messageToken queryToken || containsSub queryToken messageToken)
              && ((messageToken.length : Int) - (queryToken.length : Int)).natAbs ≤ 2 then
        acc2 ++ [queryToken]
      else acc2) acc) []

/-- JS `[...new Set(xs)]`: deduplicate keeping the first occurrence of
each element, in insertion order. -/
def dedupFirst (xs : List Str) : List Str :=
  xs.foldl (fun acc x => if acc.contains x then acc else acc ++ [x]) []

/-- Per-message body of the `session.messages.forEach` in `executeSearch`:
sender/length filters, matched-terms collection (including the raw-query
phrase check that pushes `filters.query` itself), and result construction
when the match set is non-empty. -/
def processMessage (now : Int) (filters : SearchFilters) (queryTokens : List Str)
    (session : ChatSession) (messageIndex : Nat) (message : ChatMessageType) :
    Option SearchResult :=
  if filters.senderType = some SenderType.user && message.isAI then none
  else if filters.senderType = some SenderType.ai && !message.isAI then none
  else if (match filters.messageLength with
           | some (mn, mx) => message.message.length < mn || message.message.length > mx
           | none => false) then none
  else
    let messageTokens := tokenizeText message.message
    let matchedTerms := findMatchedTerms queryTokens messageTokens
    let matchedTerms :=
      if containsSub (lowerStr message.message) (lowerStr filters.query) then
        matchedTerms ++ [filters.query]
      else matchedTerms
    if matchedTerms.length > 0 then
      some { session := session
             message := message
             relevanceScore := calculateRelevanceScore now message queryTokens matchedTerms
             matchedTerms := dedupFirst matchedTerms
             context := getMessageContext session messageIndex }
    else none

/-- Session-level date filter of `executeSearch`. -/
def sessionFiltered (filters : SearchFilters) (session : ChatSession) : Bool :=
  match filters.dateRange with
  | some (start, stop) => session.createdAt < start || session.createdAt > stop
  | none => false

/-- Sort comparator of `executeSearch` (`results.sort`): the JS
comparator value; `mergeSort` with `comparator ≤ 0` reproduces the stable
ascending-by-comparator JS sort. -/
def sortComparator (filters : SearchFilters) (a b : SearchResult) : ℚ :=
  match filters.sortBy with
  | some SortKey.date =>
    if filters.sortOrder = some SortOrder.asc then
      ((a.message.timestamp - b.message.timestamp : Int) : ℚ)
    else ((b.message.timestamp - a.message.timestamp : Int) : ℚ)
  | some SortKey.length =>
    if filters.sortOrder = some SortOrder.asc then
      ((a.message.message.length : ℚ) - (b.message.message.length : ℚ))
    else ((b.message.message.length : ℚ) - (a.message.message.length : ℚ))
  | _ => b.relevanceScore - a.relevanceScore

/-- Result accumulation of `executeSearch` on a non-blank query (the
`sessions.forEach` / `session.messages.forEach` double loop, pushing in
encounter order). -/
def executeSearchUnsorted (now : Int) (sessions : List ChatSession)
    (filters : SearchFilters) : List SearchResult :=
  sessions.foldl (fun acc session =>
    if sessionFiltered filters session then acc
    else session.messages.enum.foldl (fun acc2 im =>
      match processMessage now filters (tokenizeText filters.query) session im.1 im.2 with
      | some r => acc2 ++ [r]
      | none => acc2) acc) []

/-- Result list of `executeSearch` on a non-blank query: the scan above
followed by the stable JS `results.sort`. -/
def executeSearchResults (now : Int) (sessions : List ChatSession)
    (filters : SearchFilters) : List SearchResult :=
  (executeSearchUnsorted now sessions filters).mergeSort
    (fun a b => sortComparator filters a b ≤ 0)

/-- Mirror of the hook's `searchStats` state. `searchTime` is wall-clock
(`performance.now()` deltas) and is modelled as 0. -/
structure SearchStats where
  totalResults : Nat
  searchTime : Int
  sessionsSearched : Nat
deriving DecidableEq

/-- React state touched by `executeSearch` (`searchResults` and
`searchStats`). -/
structure SearchState where
  searchResults : List SearchResult
  searchStats : SearchStats
deriving DecidableEq

/-- JS `String.prototype.trim`. -/
def trimStr (s : Str) : Str :=
  ((s.dropWhile isWs).reverse.dropWhile isWs).reverse

/-- Mirror of `executeSearch` as a transformer of the hook state: a blank
query (`!filters.query.trim()`) clears the results and returns before any
session is examined and before the stats are touched; otherwise the
results are computed, sorted and stored together with fresh stats. -/
def executeSearch (now : Int) (sessions : List ChatSession)
    (filters : SearchFilters) (st : SearchState) : SearchState :=
  if trimStr filters.query = [] then
    { st with searchResults := [] }
  else
    let results := executeSearchResults now sessions filters
    { searchResults := results
      searchStats := { totalResults := results.length
                       searchTime := 0
                       sessionsSearched := sessions.length } }

/-- Spec-side tokenizer, following the spec's words: "normalize query into
lowercase alphanumeric tokens of length > 2 (tokens of length ≤ 2 are
dropped as noise)"; word characters separate tokens from everything else. -/
def specTokenize (text : Str) : List Str :=
  ((splitWs (replaceNonWord (lowerStr text))).filter (fun token => token.length > 2))

/-- Spec-side relevance formula, following the spec's words: "+10 per
query token found as a literal substring of the message text, +5 per
occurrence of each matched fuzzy/exact term among the message's own
tokens, multiplied by 1.2 if message length < 100 chars, multiplied again
by 1.5 if message length < 50 chars (multipliers compound), by 1.1 if the
message is user-authored (not AI), and by 1.1 if the message is less than
7 days old". -/
def specRelevanceScore (now : Int) (message : ChatMessageType)
    (queryTokens matchedTerms : List Str) : ℚ :=
  let messageTokens := specTokenize message.message
  let base : ℚ :=
    10 * (queryTokens.countP (fun token => containsSub (lowerStr message.message) token) : ℚ)
    + 5 * ((matchedTerms.map
        (fun term => (messageTokens.countP (fun token => containsSub token term) : ℚ))).sum)
  base
    * (if message.message.length < 100 then (1.2 : ℚ) else 1)
    * (if message.message.length < 50 then (1.5 : ℚ) else 1)
    * (if !message.isAI then (1.1 : ℚ) else 1)
    * (if (now - message.timestamp : Int) < 7 * (1000 * 60 * 60 * 24) then (1.1 : ℚ) else 1)

end useMessageSearch

namespace useMessagePersistence

open ChatModel

/-- Mirror of `MAX_SESSIONS` (`src/types/chat.ts`). -/
def MAX_SESSIONS : Nat := 50

/-- Comparator-as-order of the JS `sort((a, b) => b.updatedAt.getTime() -
a.updatedAt.getTime())`: `a` may precede `b` exactly when the comparator
is ≤ 0, i.e. descending by `updatedAt`; `mergeSort` with this relation is
the stable JS sort. -/
def byUpdatedDesc (a b : ChatSession) : Bool := b.updatedAt ≤ a.updatedAt

/-- Mirror of `saveSessions`: sort descending by `updatedAt`, keep the
first `MAX_SESSIONS`; the result is both written to storage and installed
as the exposed session list. -/
def saveSessions (sessionsToSave : List ChatSession) : List ChatSession :=
  (sessionsToSave.mergeSort byUpdatedDesc).take MAX_SESSIONS

/-- Sessions dropped by the cap of `saveSessions`. -/
def droppedSessions (sessionsToSave : List ChatSession) : List ChatSession :=
  (sessionsToSave.mergeSort byUpdatedDesc).drop MAX_SESSIONS

/-- Mirror of `createSession`: prepend a fresh empty session (id and
clock passed explicitly) and persist. -/
def createSession (now : Int) (newId : String) (title : Str)
    (sessions : List ChatSession) : List ChatSession :=
  saveSessions ({ id := newId, title := title, messages := [],
                  createdAt := now, updatedAt := now } :: sessions)

/-- Mirror of `saveMessage`: append the new message to the current
session, bump its `updatedAt`, replace it in the list by id, persist. -/
def saveMessage (now : Int) (newMessage : ChatMessageType)
    (currentSession : ChatSession) (sessions : List ChatSession) : List ChatSession :=
  let updatedSession : ChatSession :=
    { currentSession with
      messages := currentSession.messages ++ [newMessage]
      updatedAt := now }
  saveSessions (sessions.map (fun s => if s.id = currentSession.id then updatedSession else s))

/-- Mirror of `deleteSession`: drop the session by id and persist. -/
def deleteSession (sessionId : String) (sessions : List ChatSession) : List ChatSession :=
  saveSessions (sessions.filter (fun s => ¬(s.id = sessionId)))

end useMessagePersistence

namespace AdvancedCache

variable {α : Type}

/-- Mirror of `EntryMetadata` (`src/lib/advancedCaching.ts`). -/
structure EntryMetadata where
  createdAt : Int
  updatedAt : Int
  expiresAt : Int
  accessCount : Nat
  lastAccessed : Int
  size : Nat
  tags : List String
  priority : Int
  version : Nat
deriving DecidableEq

/-- Mirror of `CacheEntry<T>`; the optional SHA-256 `checksum` is carried
but never computed here (it is write-only in the source and outside every
claim). -/
structure CacheEntry (α : Type) where
  key : String
  value : α
  metadata : EntryMetadata
  checksum : Option String := none
deriving DecidableEq

/-- One created cache layer: its configured name, numeric priority and
enabled flag together with its resident `Map` in insertion order. The
claims are settled over `MemoryCacheLayer`, the one layer the source
implements with an actual in-process map; `isEnabled()` for it is exactly
the configured flag. Layers whose `enabled` flag is false are never
created by `initializeLayers` (`if (!layerConfig.enabled) continue`), but
the flag is kept and re-checked wherever the source re-checks it. -/
structure LayerState (α : Type) where
  name : String
  priority : Int
  enabled : Bool
  store : List (String × CacheEntry α)
deriving DecidableEq

/-- The configuration fields of a layer (everything but the resident
store): used to state that cache operations only ever touch stores. -/
def layerFields (l : LayerState α) : String × Int × Bool :=
  (l.name, l.priority, l.enabled)

/-- JS `Map.prototype.get`. -/
def storeGet (store : List (String × CacheEntry α)) (key : String) : Option (CacheEntry α) :=
  (store.find? (fun kv => kv.1 == key)).map (fun kv => kv.2)

/-- JS `Map.prototype.set` keyed by `entry.key`: an existing binding is
replaced in place, a new one is appended (insertion order preserved). -/
def storeSet : List (String × CacheEntry α) → CacheEntry α → List (String × CacheEntry α)
  | [], e => [(e.key, e)]
  | kv :: rest, e => if kv.1 == e.key then (kv.1, e) :: rest else kv :: storeSet rest e

/-- JS `Map.prototype.delete`: remove the binding, report whether it
existed. -/
def storeDelete : List (String × CacheEntry α) → String → Bool × List (String × CacheEntry α)
  | [], _ => (false, [])
  | kv :: rest, key =>
    if kv.1 == key then (true, rest)
    else
      let r := storeDelete rest key
      (r.1, kv :: r.2)

/-- Mirror of `AdvancedCache.isExpired`: strictly past-deadline only
(`Date.now() > entry.metadata.expiresAt`). -/
def isExpired (now : Int) (entry : CacheEntry α) : Bool :=
  now > entry.metadata.expiresAt

inductive WritePolicy where
  | writeThrough | writeBack | writeAround
deriving DecidableEq

/-- The cache-wide state the claims touch: the created layers (in
`config.layers` declaration order) plus the configuration fields read by
`get`/`set`. -/
structure CacheState (α : Type) where
  layers : List (LayerState α)
  defaultTTL : Int
  writePolicy : WritePolicy
deriving DecidableEq

/-- Mirror of `getLayerPriority`: enabled layers sorted ascending by
priority, ties kept in declaration order (JS `Array.prototype.sort` is
stable). The source returns the name list and re-resolves each name in
the layer map; both checks collapse to the traversal below. -/
def getLayerPriority (layers : List (LayerState α)) : List (LayerState α) :=
  (layers.filter (fun l => l.enabled)).mergeSort
    (fun a b => decide (a.priority ≤ b.priority))

/-- Scan of `get`: first enabled layer holding a present, non-expired
entry; expired entries are skipped and the scan continues downward. -/
def findHit (key : String) (now : Int) : List (LayerState α) → Option (LayerState α × CacheEntry α)
  | [] => none
  | l :: rest =>
    match storeGet l.store key with
    | some entry => if !isExpired now entry then some (l, entry) else findHit key now rest
    | none => findHit key now rest

/-- Access-metadata update of `get`
(`entry.metadata.lastAccessed = Date.now(); entry.metadata.accessCount++`). -/
def touch (now : Int) (entry : CacheEntry α) : CacheEntry α :=
  { entry with metadata :=
      { entry.metadata with lastAccessed := now
                            accessCount := entry.metadata.accessCount + 1 } }

/-- Write an entry into the named layer's store (the layer map holds one
layer per name). -/
def setInLayer (st : CacheState α) (name : String) (entry : CacheEntry α) : CacheState α :=
  { st with layers := st.layers.map (fun l =>
      if l.name == name then { l with store := storeSet l.store entry } else l) }

/-- Mirror of `promoteEntry`: write the entry into every layer that comes
before the serving layer in the priority ordering (re-checking
`isEnabled`, as the source does). -/
def promoteEntry (st : CacheState α) (entry : CacheEntry α) (currentLayer : String) : CacheState α :=
  let ordered : List (LayerState α) := getLayerPriority st.layers
  let currentIndex := ordered.findIdx (fun l => l.name == currentLayer)
  (ordered.take currentIndex).foldl
    (fun s l => if l.enabled then setInLayer s l.name entry else s) st

/-- Mirror of `AdvancedCache.get`: scan layers in priority order; on the
first live entry update its access metadata (the served object is the one
resident in the memory layer, so the mutation lands in that store),
promote it to all higher-priority layers, and return its value together
with the serving layer's name (the source reports the layer in the `hit`
event). -/
def get (st : CacheState α) (key : String) (now : Int) :
    Option (α × String) × CacheState α :=
  match findHit key now (getLayerPriority st.layers) with
  | none => (none, st)
  | some (l, entry0) =>
    let entry := touch now entry0
    let st1 := setInLayer st l.name entry
    (some (entry.value, l.name), promoteEntry st1 entry l.name)

/-- Mirror of `SetOptions`; `checksum` and `layer` are omitted (the former
only attaches a digest that is never read, the latter is unused by
`set`). -/
structure SetOptions where
  ttl : Option Int := none
  tags : Option (List String) := none
  priority : Option Int := none
deriving DecidableEq

/-- JS `x || d` on an optional number: both `undefined` and `0` fall back
to the default. -/
def jsOrInt (x : Option Int) (d : Int) : Int :=
  match x with
  | none => d
  | some t => if t = 0 then d else t

/-- Entry construction of `AdvancedCache.set`: fresh timestamps,
`expiresAt = now + (options.ttl || defaultTTL)`, `accessCount = 0`, and
`version: 1` unconditionally. `calcSize` abstracts
`JSON.stringify(value).length * 2`. -/
def mkEntry (calcSize : α → Nat) (defaultTTL : Int) (now : Int)
    (key : String) (v : α) (opts : SetOptions) : CacheEntry α :=
  { key := key
    value := v
    metadata := { createdAt := now
                  updatedAt := now
                  expiresAt := now + jsOrInt opts.ttl defaultTTL
                  accessCount := 0
                  lastAccessed := now
                  size := calcSize v
                  tags := opts.tags.getD []
                  priority := jsOrInt opts.priority 1
                  version := 1 } }

/-- Modelled from the spec: `writeToAllLayers` is called by
`AdvancedCache.set` under write-through but its body is not in the
source; the spec says write-through "writes to every enabled layer
synchronously before returning". -/
def writeToAllLayers (st : CacheState α) (entry : CacheEntry α) : CacheState α :=
  { st with layers := st.layers.map (fun l =>
      if l.enabled then { l with store := storeSet l.store entry } else l) }

/-- Modelled from the spec: `writeToTopLayer` is called by
`AdvancedCache.set` under write-back but its body is not in the source;
the spec says write-back "writes only to the highest-priority
(lowest-number) layer" (the scheduled asynchronous propagation is not
modelled). -/
def writeToTopLayer (st : CacheState α) (entry : CacheEntry α) : CacheState α :=
  match getLayerPriority st.layers with
  | [] => st
  | top :: _ => setInLayer st top.name entry

/-- Modelled from the spec: `writeToStorageLayers` is called by
`AdvancedCache.set` under write-around but its body is not in the source;
the spec says write-around "writes to every layer except the
highest-priority one". -/
def writeToStorageLayers (st : CacheState α) (entry : CacheEntry α) : CacheState α :=
  match getLayerPriority st.layers with
  | [] => st
  | _ :: rest => rest.foldl (fun s l => setInLayer s l.name entry) st

/-- Mirror of `AdvancedCache.set`: build the fresh entry, then dispatch on
the configured write policy. -/
def set (calcSize : α → Nat) (st : CacheState α) (key : String) (v : α)
    (now : Int) (opts : SetOptions) : CacheState α :=
  let entry := mkEntry calcSize st.defaultTTL now key v opts
  match st.writePolicy with
  | WritePolicy.writeThrough => writeToAllLayers st entry
  | WritePolicy.writeBack => writeToTopLayer st entry
  | WritePolicy.writeAround => writeToStorageLayers st entry

/-- Mirror of `AdvancedCache.delete`: issue the delete to every enabled
layer, OR-ing the per-layer existed flags. -/
def delete (st : CacheState α) (key : String) : Bool × CacheState α :=
  let processed := st.layers.map (fun l =>
    if l.enabled then
      let r := storeDelete l.store key
      (r.1, { l with store := r.2 })
    else (false, l))
  (processed.any (fun p => p.1), { st with layers := processed.map (fun p => p.2) })

/-- Mirror of `MemoryCacheLayer.clear`: with a pattern, delete the keys
the regex accepts (`regexTest` abstracts `new RegExp(pattern).test`);
without one, clear the whole map. -/
def clearLayerStore (regexTest : String → String → Bool) (pattern : Option String)
    (store : List (String × CacheEntry α)) : List (String × CacheEntry α) :=
  match pattern with
  | none => []
  | some p => store.filter (fun kv => !(regexTest p kv.1))

/-- Mirror of `AdvancedCache.clear`: fan out to every enabled layer. -/
def clear (regexTest : String → String → Bool) (st : CacheState α)
    (pattern : Option String) : CacheState α :=
  { st with layers := st.layers.map (fun l =>
      if l.enabled then { l with store := clearLayerStore regexTest pattern l.store } else l) }

/-- Recorded transaction operation, the tagged union behind
`CacheOperation` (`type` is one of get/set/delete/clear/expire; `value`
and `options` accompany `set`; `clear` receives `operation.key` as its
pattern). -/
inductive CacheOp (α : Type) where
  | get (key : String)
  | set (key : String) (value : α) (options : SetOptions)
  | delete (key : String)
  | clear (key : String)
  | expire (key : String)
deriving DecidableEq

/-- Mirror of `CacheTransaction`. -/
structure CacheTransaction (α : Type) where
  id : String
  operations : List (CacheOp α)
  isolation : String := ("read-committed")
  timeout : Int := 30000
  retries : Nat := 3
deriving DecidableEq

/-- Cache state plus the transaction registry (`this.transactions`). -/
structure AdvancedState (α : Type) where
  cache : CacheState α
  transactions : List (String × CacheTransaction α)
deriving DecidableEq

/-- JS `Map.prototype.get` on the transaction registry. -/
def txnLookup (txns : List (String × CacheTransaction α)) (id : String) :
    Option (CacheTransaction α) :=
  (txns.find? (fun kv => kv.1 == id)).map (fun kv => kv.2)

/-- JS `Map.prototype.delete` on the transaction registry. -/
def txnErase (txns : List (String × CacheTransaction α)) (id : String) :
    List (String × CacheTransaction α) :=
  txns.filter (fun kv => !(kv.1 == id))

def unknownOperationMsg : String := ("Unknown operation type: expire")

/-- Mirror of `executeOperation`: dispatch a recorded operation against
the orchestrator; the `expire` tag falls through to the default branch of
the source's switch, which throws. -/
def executeOperation (calcSize : α → Nat) (regexTest : String → String → Bool)
    (now : Int) (st : CacheState α) : CacheOp α → Except String (CacheState α)
  | CacheOp.get key => Except.ok (get st key now).2
  | CacheOp.set key v opts => Except.ok (set calcSize st key v now opts)
  | CacheOp.delete key => Except.ok (delete st key).2
  | CacheOp.clear key => Except.ok (clear regexTest st (some key))
  | CacheOp.expire _ => Except.error unknownOperationMsg

/-- Mirror of `reverseOperation`: a recorded `set` is reversed by deleting
its key (the prior value is not restored), a recorded `delete` cannot be
reversed without a snapshot and is a no-op, every other tag falls into
the source's default no-op branch. Over memory layers the deletes cannot
throw, so no error is produced here; the catch of `rollbackTransaction`
is kept in `rollbackStep` below. -/
def reverseOperation (st : CacheState α) : CacheOp α → Except String (CacheState α)
  | CacheOp.set key _ _ => Except.ok (delete st key).2
  | _ => Except.ok st

/-- One iteration of the rollback loop, with the source's try/catch: an
error while reversing is logged and does not halt reversal of the
remaining operations. -/
def rollbackStep (st : CacheState α) (op : CacheOp α) : CacheState α :=
  match reverseOperation st op with
  | Except.ok st2 => st2
  | Except.error _ => st

/-- Reversal loop of `rollbackTransaction`: recorded operations processed
in strict reverse (LIFO) order
(`for (let i = operations.length - 1; i >= 0; i--)`). -/
def rollbackOps (st : CacheState α) (ops : List (CacheOp α)) : CacheState α :=
  ops.reverse.foldl rollbackStep st

/-- Mirror of `rollbackTransaction`: missing transactions are ignored;
otherwise reverse all recorded operations LIFO and remove the transaction
from the registry. -/
def rollbackTransaction (a : AdvancedState α) (transactionId : String) : AdvancedState α :=
  match txnLookup a.transactions transactionId with
  | none => a
  | some txn =>
    { cache := rollbackOps a.cache txn.operations
      transactions := txnErase a.transactions transactionId }

/-- Replay loop of `commitTransaction`: execute recorded operations in
recorded order, stopping at the first failure (returning the failure and
the cache state reached so far). -/
def replayOps (calcSize : α → Nat) (regexTest : String → String → Bool) (now : Int)
    (st : CacheState α) : List (CacheOp α) → Except (String × CacheState α) (CacheState α)
  | [] => Except.ok st
  | op :: rest =>
    match executeOperation calcSize regexTest now st op with
    | Except.ok st2 => replayOps calcSize regexTest now st2 rest
    | Except.error e => Except.error (e, st)

def txnNotFoundMsg : String := ("Transaction not found")

/-- Mirror of `commitTransaction`: replay the recorded operations in
order; on success remove the transaction from the registry; on a failure
mid-replay run `rollbackTransaction` (which reverses LIFO and removes the
transaction) and re-raise the failure to the caller. -/
def commitTransaction (calcSize : α → Nat) (regexTest : String → String → Bool)
    (now : Int) (a : AdvancedState α) (transactionId : String) :
    Except String Unit × AdvancedState α :=
  match txnLookup a.transactions transactionId with
  | none => (Except.error txnNotFoundMsg, a)
  | some txn =>
    match replayOps calcSize regexTest now a.cache txn.operations with
    | Except.ok st2 =>
      (Except.ok (), { cache := st2, transactions := txnErase a.transactions transactionId })
    | Except.error er =>
      (Except.error er.1,
       rollbackTransaction { cache := er.2, transactions := a.transactions } transactionId)

end AdvancedCache

namespace LocalStorageCacheLayer

open AdvancedCache

variable {α : Type}

/-- Mirror of the layer's `keyPrefix = "cache:"`. -/
def keyPref : String := ("cache:")

/-- A stored `localStorage` payload: either the JSON serialization of a
cache entry (JSON round-trips of the entry's numeric timestamps are the
identity, which the source re-applies through `new Date(...).getTime()`),
or a malformed string on which `JSON.parse`/field access throws. -/
inductive StoredVal (α : Type) where
  | entry (e : CacheEntry α)
  | corrupt (raw : String)
deriving DecidableEq

/-- JS `JSON.parse` plus the metadata revival in the layer's `get`:
`none` models the thrown exception on a malformed payload. -/
def parsePayload : StoredVal α → Option (CacheEntry α)
  | StoredVal.entry e => some e
  | StoredVal.corrupt _ => none

/-- The `localStorage` key/value store, in key insertion order. -/
structure LSState (α : Type) where
  items : List (String × StoredVal α)
deriving DecidableEq

/-- JS `localStorage.getItem`. -/
def lsGetItem (st : LSState α) (k : String) : Option (StoredVal α) :=
  (st.items.find? (fun kv => kv.1 == k)).map (fun kv => kv.2)

/-- JS `localStorage.setItem` when the medium accepts the write. -/
def lsPutItem (st : LSState α) (k : String) (v : StoredVal α) : LSState α :=
  { items :=
      if (st.items.find? (fun kv => kv.1 == k)).isSome then
        st.items.map (fun kv => if kv.1 == k then (kv.1, v) else kv)
      else st.items ++ [(k, v)] }

/-- Mirror of `LocalStorageCacheLayer.get`: read the prefixed key; a
missing item is `null`; a payload on which parsing throws is caught and
returned as `null` (a miss), never an exception. -/
def get (st : LSState α) (key : String) : Option (CacheEntry α) :=
  match lsGetItem st (keyPref ++ key) with
  | none => none
  | some payload => parsePayload payload

/-- JS `key.startsWith(prefix)` as a character-sequence prefix test. -/
def strStartsWith (s pre : String) : Bool :=
  pre.data.isPrefixOf s.data

/-- Mirror of `LocalStorageCacheLayer.cleanup`: walk the prefixed keys;
queue for removal every entry whose parse throws (corrupted) and every
entry that is past its deadline, then remove the queued keys. -/
def cleanup (now : Int) (st : LSState α) : LSState α :=
  { items := st.items.filter (fun kv =>
      if strStartsWith kv.1 keyPref then
        match kv.2 with
        | StoredVal.corrupt _ => false
        | StoredVal.entry e => !(now > e.metadata.expiresAt)
      else true) }

/-- Mirror of `LocalStorageCacheLayer.set`. Whether the medium rejects a
write (storage quota) is environmental, so the two `setItem` attempts
take outcome oracles `failFirst`/`failSecond`: on a first failure the
layer runs `cleanup()` and retries exactly once; a second failure is not
caught and surfaces to the caller (the returned `Except.error`), leaving
the storage as the cleanup left it. -/
def set (failFirst failSecond : Bool) (now : Int) (st : LSState α)
    (entry : CacheEntry α) : Except Unit (LSState α) × LSState α :=
  if failFirst then
    let cleaned := cleanup now st
    if failSecond then (Except.error (), cleaned)
    else
      let written := lsPutItem cleaned (keyPref ++ entry.key) (StoredVal.entry entry)
      (Except.ok written, written)
  else
    let written := lsPutItem st (keyPref ++ entry.key) (StoredVal.entry entry)
    (Except.ok written, written)

end LocalStorageCacheLayer

namespace CacheMetrics

/-- Mirror of `OperationStats`; `minTime` starts at `Infinity`, modelled
as `none`, with `Math.min` folding it away on first use. Times are exact
rationals. -/
structure OperationStats where
  count : Nat
  totalTime : ℚ
  averageTime : ℚ
  minTime : Option ℚ
  maxTime : ℚ
  errors : Nat
deriving DecidableEq

/-- JS `Math.min(stats.minTime, time)` with `minTime` starting at
`Infinity`. -/
def jsMin (m : Option ℚ) (t : ℚ) : Option ℚ :=
  match m with
  | none => some t
  | some x => some (min x t)

/-- Mirror of `OperationMetrics` (one `OperationStats` per operation
kind). -/
structure OperationMetrics where
  get : OperationStats
  set : OperationStats
  delete : OperationStats
  clear : OperationStats
  sync : OperationStats
deriving DecidableEq

inductive OpKind where
  | get | set | delete | clear | sync
deriving DecidableEq

def statsOf (om : OperationMetrics) : OpKind → OperationStats
  | OpKind.get => om.get
  | OpKind.set => om.set
  | OpKind.delete => om.delete
  | OpKind.clear => om.clear
  | OpKind.sync => om.sync

def withStats (om : OperationMetrics) : OpKind → OperationStats → OperationMetrics
  | OpKind.get, s => { om with get := s }
  | OpKind.set, s => { om with set := s }
  | OpKind.delete, s => { om with delete := s }
  | OpKind.clear, s => { om with clear := s }
  | OpKind.sync, s => { om with sync := s }

/-- Per-operation update of `updateOperationStats` on the stats record
held in `this.metrics.operations`. -/
def applyOpStats (s : OperationStats) (time : ℚ) (isError : Bool) : OperationStats :=
  if isError then { s with errors := s.errors + 1 }
  else
    let count := s.count + 1
    let totalTime := s.totalTime + time
    { s with count := count
             totalTime := totalTime
             averageTime := totalTime / (count : ℚ)
             minTime := jsMin s.minTime time
             maxTime := max s.maxTime time }

/-- Heap of `OperationMetrics` objects: JS objects are heap references,
and the spread copy in `getMetrics` copies the reference, not the object.
Addresses are indices. -/
structure MetricsHeap where
  opsObjs : List OperationMetrics
deriving DecidableEq

/-- Mirror of the `CacheMetrics` object: number-valued fields are held
inline (a spread copies their values) while the nested `operations`
object lives on the heap behind `operationsAddr` (a spread copies the
address). The `layers` array is `[]` at initialization and never updated
by the source, so it is not carried. -/
structure MetricsObj where
  hits : Nat
  misses : Nat
  hitRate : ℚ
  evictions : Nat
  memoryUsage : ℚ
  storageUsage : ℚ
  averageAccessTime : ℚ
  operationsAddr : Nat
deriving DecidableEq

def initOperationStats : OperationStats :=
  { count := 0, totalTime := 0, averageTime := 0, minTime := none, maxTime := 0, errors := 0 }

def initOperationMetrics : OperationMetrics :=
  { get := initOperationStats, set := initOperationStats, delete := initOperationStats,
    clear := initOperationStats, sync := initOperationStats }

/-- Mirror of `initializeMetrics`: allocate a fresh operations object on
the heap and return the metrics object pointing at it. -/
def initializeMetrics (h : MetricsHeap) : MetricsHeap × MetricsObj :=
  ({ opsObjs := h.opsObjs ++ [initOperationMetrics] },
   { hits := 0, misses := 0, hitRate := 0, evictions := 0, memoryUsage := 0,
     storageUsage := 0, averageAccessTime := 0, operationsAddr := h.opsObjs.length })

/-- Mirror of `getMetrics`: `{ ...this.metrics }`, a shallow spread — as a
record value the copy has exactly the fields of the original, including
the same `operationsAddr`. -/
def getMetrics (m : MetricsObj) : MetricsObj := m

/-- In-place update of the heap cell at an address. -/
def updateAt {β : Type} : List β → Nat → (β → β) → List β
  | [], _, _ => []
  | x :: rest, 0, f => f x :: rest
  | x :: rest, n + 1, f => x :: updateAt rest n f

/-- Mirror of `updateOperationStats`: mutate the operations object on the
heap at the metrics object's address. -/
def updateOperationStats (h : MetricsHeap) (m : MetricsObj) (op : OpKind)
    (time : ℚ) (isError : Bool) : MetricsHeap :=
  { opsObjs := updateAt h.opsObjs m.operationsAddr
      (fun om => withStats om op (applyOpStats (statsOf om op) time isError)) }

/-- Dereference a metrics object's nested operations record. -/
def viewOps (h : MetricsHeap) (m : MetricsObj) : Option OperationMetrics :=
  h.opsObjs.get? m.operationsAddr

/-- Mirror of `updateHitRate`, acting on the scalar fields of the live
metrics object. -/
def updateHitRate (m : MetricsObj) : MetricsObj :=
  let total := m.hits + m.misses
  { m with hitRate := if total > 0 then (m.hits : ℚ) / (total : ℚ) else 0 }

/-- Mirror of `recordHit`: bump the live object's `hits` scalar, refresh
the hit rate, and update the get-operation stats on the heap. -/
def recordHit (h : MetricsHeap) (m : MetricsObj) (time : ℚ) : MetricsHeap × MetricsObj :=
  let m2 := updateHitRate { m with hits := m.hits + 1 }
  (updateOperationStats h m2 OpKind.get time false, m2)

/-- Mirror of `recordSet`. -/
def recordSet (h : MetricsHeap) (m : MetricsObj) (time : ℚ) : MetricsHeap × MetricsObj :=
  (updateOperationStats h m OpKind.set time false, m)

end CacheMetrics

namespace Fixtures

open ChatModel useMessageSearch AdvancedCache LocalStorageCacheLayer CacheMetrics

/-- First message of the spec's search scenario (user-authored). -/
def scenarioMsg1 : ChatMessageType :=
  { id := ("m1"), message := ("My order is broken").data, isAI := false,
    sender := ("You").data, timestamp := 0 }

/-- Second message of the scenario (AI-authored). -/
def scenarioMsg2 : ChatMessageType :=
  { id := ("m2"), message := ("Sorry to hear that").data, isAI := true,
    sender := ("AI").data, timestamp := 0 }

/-- Third message of the scenario (user-authored). -/
def scenarioMsg3 : ChatMessageType :=
  { id := ("m3"), message := ("I need a refund").data, isAI := false,
    sender := ("You").data, timestamp := 0 }

/-- The single session of the search scenario. -/
def scenarioSession : ChatSession :=
  { id := ("s1"), title := ("Support").data, messages := [scenarioMsg1, scenarioMsg2, scenarioMsg3],
    createdAt := 0, updatedAt := 0 }

/-- Filters of the scenario: only the query is set. -/
def scenarioFilters : SearchFilters := { query := ("order").data }

/-- A whitespace-only query for the blank-search claim. -/
def blankFilters : SearchFilters := { query := [' ', '\t'] }

/-- An arbitrary non-trivial pre-existing hook state. -/
def preState : SearchState :=
  { searchResults := []
    searchStats := { totalResults := 7, searchTime := 3, sessionsSearched := 2 } }

/-- A single enabled memory layer, initially empty. -/
def memLayer : LayerState Nat :=
  { name := ("memory"), priority := 1, enabled := true, store := [] }

/-- A write-through cache with the single memory layer. -/
def cache0 : CacheState Nat :=
  { layers := [memLayer], defaultTTL := 100, writePolicy := WritePolicy.writeThrough }

/-- A stored entry whose deadline is exactly t = 5. -/
def deadlineEntry : CacheEntry Nat :=
  { key := ("k"), value := 42,
    metadata := { createdAt := 0, updatedAt := 0, expiresAt := 5, accessCount := 0,
                  lastAccessed := 0, size := 0, tags := [], priority := 1, version := 1 } }

/-- A cache holding `deadlineEntry` in its memory layer. -/
def deadlineCache : CacheState Nat :=
  { layers := [{ name := ("memory"), priority := 1, enabled := true,
                 store := [("k", deadlineEntry)] }],
    defaultTTL := 100, writePolicy := WritePolicy.writeThrough }

/-- Size estimator for the fixtures (`JSON.stringify(value).length * 2` is
irrelevant to every claim). -/
def exSize : Nat → Nat := fun _ => 0

/-- Regex oracle for the fixtures (no clear-with-pattern operation is
exercised). -/
def exRegex : String → String → Bool := fun _ _ => false

/-- Four recorded operations whose third one fails during replay (the
`expire` tag hits the throwing default branch of `executeOperation`). -/
def failingOps : List (CacheOp Nat) :=
  [CacheOp.set ("k1") 1 {}, CacheOp.set ("k2") 2 {}, CacheOp.expire ("k3"),
   CacheOp.set ("k4") 4 {}]

/-- The transaction recording `failingOps`. -/
def failingTxn : CacheTransaction Nat := { id := ("t1"), operations := failingOps }

/-- State after `set("k", 10)` at t = 0 on the empty write-through cache. -/
def c1State1 : CacheState Nat := AdvancedCache.set exSize cache0 ("k") 10 0 {}

/-- State after the subsequent `set("k", 20)` at t = 1. -/
def c1State2 : CacheState Nat := AdvancedCache.set exSize c1State1 ("k") 20 1 {}

/-- A live entry stored in the lower-priority layer for the promotion
witness. -/
def promoEntry : CacheEntry Nat :=
  { key := ("k"), value := 9,
    metadata := { createdAt := 0, updatedAt := 0, expiresAt := 10, accessCount := 0,
                  lastAccessed := 0, size := 0, tags := [], priority := 1, version := 1 } }

/-- Fast empty layer (priority 1). -/
def promoLayer1 : LayerState Nat :=
  { name := ("memory"), priority := 1, enabled := true, store := [] }

/-- Slower layer (priority 2) holding `promoEntry`. -/
def promoLayer2 : LayerState Nat :=
  { name := ("localStorage"), priority := 2, enabled := true,
    store := [("k", promoEntry)] }

/-- Two-layer cache for the promotion witness. -/
def promoCache : CacheState Nat :=
  { layers := [promoLayer1, promoLayer2], defaultTTL := 100,
    writePolicy := WritePolicy.writeThrough }

/-- The state after `get("k")` at t = 4 hits `promoLayer2` and promotes. -/
def promoPost : CacheState Nat :=
  AdvancedCache.promoteEntry
    (AdvancedCache.setInLayer promoCache promoLayer2.name (AdvancedCache.touch 4 promoEntry))
    (AdvancedCache.touch 4 promoEntry) promoLayer2.name

/-- A localStorage store holding a corrupted payload under the prefixed
key `cache:k`. -/
def lsCorrupt : LSState Nat :=
  { items := [(keyPref ++ ("k"), StoredVal.corrupt ("not json"))] }

/-- The empty metrics heap. -/
def mheap0 : MetricsHeap := { opsObjs := [] }

/-- Freshly initialized metrics: heap with one operations object and the
metrics object pointing at it. -/
def mInit : MetricsHeap × MetricsObj := initializeMetrics mheap0

/-- A snapshot taken before any operation is recorded. -/
def msnap : MetricsObj := getMetrics mInit.2

/-- The heap after one `set` operation (5 ms) is recorded post-snapshot. -/
def mheap2 : MetricsHeap := (recordSet mInit.1 mInit.2 5).1

/-- Advanced cache state with the transaction registered. -/
def txnState : AdvancedState Nat :=
  { cache := cache0, transactions := [("t1", failingTxn)] }

end Fixtures

section Lemmas

/-- Sorting a one-element list is the identity, whatever the order. -/
theorem mergeSort_of_length_one {α : Type} (le : α → α → Bool) (l : List α)
    (h : l.length = 1) : l.mergeSort le = l := by
  match l, h with
  | [a], _ => simp

/-- A fold that adds a constant on each element satisfying a predicate
counts the satisfying elements. -/
theorem foldl_if_const_add {α : Type} (p : α → Bool) (c : ℚ) :
    ∀ (l : List α) (init : ℚ),
      l.foldl (fun s a => if p a then s + c else s) init
        = init + c * (l.countP p : ℚ) := by
  intro l
  induction l with
  | nil => intro init; simp
  | cons a rest ih =>
    intro init
    by_cases hp : p a
    · simp only [List.foldl_cons, hp, if_true, ih, List.countP_cons, hp]
      push_cast
      ring
    · simp only [List.foldl_cons, hp, if_false, ih, List.countP_cons, hp]
      push_cast
      ring

/-- Writing an entry into a store makes it retrievable under its own
key. -/
theorem storeGet_storeSet_self {α : Type}
    (store : List (String × AdvancedCache.CacheEntry α)) (e : AdvancedCache.CacheEntry α) :
    AdvancedCache.storeGet (AdvancedCache.storeSet store e) e.key = some e := by
  induction store with
  | nil => simp [AdvancedCache.storeSet, AdvancedCache.storeGet]
  | cons kv rest ih =>
    by_cases h : kv.1 == e.key
    · simp [AdvancedCache.storeSet, AdvancedCache.storeGet, h]
    · simp only [AdvancedCache.storeSet, h, if_false, Bool.false_eq_true]
      simpa [AdvancedCache.storeGet, List.find?_cons, h] using ih

/-- A single enabled layer is its own priority ordering. -/
theorem getLayerPriority_singleton {α : Type} (l : AdvancedCache.LayerState α)
    (h : l.enabled = true) : AdvancedCache.getLayerPriority [l] = [l] := by
  simp [AdvancedCache.getLayerPriority, h]

/-- What a successful scan of `get` guarantees: the serving layer is among
the scanned ones, it holds the returned entry under the key, and that
entry is not expired. -/
theorem findHit_spec {α : Type} (key : String) (now : Int) :
    ∀ (ordered : List (AdvancedCache.LayerState α)) (l : AdvancedCache.LayerState α)
      (entry : AdvancedCache.CacheEntry α),
      AdvancedCache.findHit key now ordered = some (l, entry) →
      l ∈ ordered ∧ AdvancedCache.storeGet l.store key = some entry
        ∧ AdvancedCache.isExpired now entry = false := by
  intro ordered
  induction ordered with
  | nil => intro l entry h; simp [AdvancedCache.findHit] at h
  | cons hd rest ih =>
    intro l entry h
    rw [AdvancedCache.findHit] at h
    cases hg : AdvancedCache.storeGet hd.store key with
    | none =>
      rw [hg] at h
      obtain ⟨h1, h2, h3⟩ := ih l entry h
      exact ⟨List.mem_cons_of_mem _ h1, h2, h3⟩
    | some e =>
      rw [hg] at h
      by_cases he : AdvancedCache.isExpired now e
      · simp only [he, Bool.not_true, if_false, Bool.false_eq_true] at h
        obtain ⟨h1, h2, h3⟩ := ih l entry h
        exact ⟨List.mem_cons_of_mem _ h1, h2, h3⟩
      · simp only [Bool.not_eq_true] at he
        simp only [he, Bool.not_false, if_true] at h
        obtain ⟨rfl, rfl⟩ := Prod.mk.injEq .. ▸ Option.some.inj h
        exact ⟨List.mem_cons_self _ _, hg, he⟩

/-- Erasing a transaction id removes it from the registry. -/
theorem txnLookup_txnErase {α : Type} (txns : List (String × AdvancedCache.CacheTransaction α))
    (id : String) : AdvancedCache.txnLookup (AdvancedCache.txnErase txns id) id = none := by
  induction txns with
  | nil => rfl
  | cons kv rest ih =>
    by_cases h : kv.1 == id
    · rw [show AdvancedCache.txnErase (kv :: rest) id = AdvancedCache.txnErase rest id by
        simp [AdvancedCache.txnErase, h]]
      exact ih
    · simp [AdvancedCache.txnErase, AdvancedCache.txnLookup, h, ih]

/-- Replaying a prefix that succeeds and then a failing operation fails
the whole replay with the state reached just before the failing
operation. -/
theorem replayOps_append_err {α : Type} (calcSize : α → Nat)
    (regexTest : String → String → Bool) (now : Int)
    (bad : AdvancedCache.CacheOp α) (post : List (AdvancedCache.CacheOp α)) (e : String) :
    ∀ (pre : List (AdvancedCache.CacheOp α)) (st stMid : AdvancedCache.CacheState α),
      AdvancedCache.replayOps calcSize regexTest now st pre = Except.ok stMid →
      AdvancedCache.executeOperation calcSize regexTest now stMid bad = Except.error e →
      AdvancedCache.replayOps calcSize regexTest now st (pre ++ bad :: post)
        = Except.error (e, stMid) := by
  intro pre
  induction pre with
  | nil =>
    intro st stMid h hb
    obtain rfl : st = stMid := Except.ok.inj h
    simp only [List.nil_append, AdvancedCache.replayOps, hb]
  | cons op rest ih =>
    intro st stMid h hb
    simp only [AdvancedCache.replayOps] at h ⊢
    cases hx : AdvancedCache.executeOperation calcSize regexTest now st op with
    | ok st2 =>
      rw [hx] at h
      dsimp only at h ⊢
      exact ih st2 stMid h hb
    | error er =>
      rw [hx] at h
      cases h

/-- A key of the adapter's own naming scheme passes the prefix test of
`cleanup`. -/
theorem strStartsWith_keyPref_append (k : String) :
    LocalStorageCacheLayer.strStartsWith (LocalStorageCacheLayer.keyPref ++ k)
      LocalStorageCacheLayer.keyPref = true := by
  simp [LocalStorageCacheLayer.strStartsWith, List.isPrefixOf_iff_prefix]

/-- After a cleanup pass, a key that held a corrupted payload no longer
resolves (given the storage's keys are unique, as `localStorage` keys
are). -/
theorem lsGetItem_cleanup_corrupt {α : Type} (now : Int) (key raw : String)
    (hpre2 : LocalStorageCacheLayer.strStartsWith key LocalStorageCacheLayer.keyPref = true) :
    ∀ (items : List (String × LocalStorageCacheLayer.StoredVal α)),
      (items.map Prod.fst).Nodup →
      LocalStorageCacheLayer.lsGetItem ⟨items⟩ key
        = some (LocalStorageCacheLayer.StoredVal.corrupt raw) →
      LocalStorageCacheLayer.lsGetItem
        (LocalStorageCacheLayer.cleanup now ⟨items⟩) key = none := by
  intro items
  induction items with
  | nil => intro _ hcor; cases hcor
  | cons kv rest ih =>
    intro hnodup hcor
    have hnd1 : kv.1 ∉ rest.map Prod.fst := by
      intro hmem
      exact (List.pairwise_cons.mp hnodup).1 _ hmem rfl
    have hnd2 : (rest.map Prod.fst).Nodup := (List.pairwise_cons.mp hnodup).2
    by_cases h1 : kv.1 == key
    · have hk : kv.1 = key := eq_of_beq h1
      have hv : kv.2 = LocalStorageCacheLayer.StoredVal.corrupt raw := by
        simp only [LocalStorageCacheLayer.lsGetItem, List.find?_cons, h1] at hcor
        exact Option.some.inj hcor
      have hdrop : LocalStorageCacheLayer.cleanup now (⟨kv :: rest⟩ :
          LocalStorageCacheLayer.LSState α)
          = LocalStorageCacheLayer.cleanup now ⟨rest⟩ := by
        simp [LocalStorageCacheLayer.cleanup, List.filter_cons, hv, hk, hpre2]
      rw [hdrop]
      have hfind : List.find? (fun kv => kv.1 == key)
          (LocalStorageCacheLayer.cleanup now (⟨rest⟩ :
            LocalStorageCacheLayer.LSState α)).items = none := by
        rw [List.find?_eq_none]
        intro x hx hbeq
        have hxr : x ∈ rest := List.mem_of_mem_filter hx
        apply hnd1
        rw [hk]
        exact (eq_of_beq hbeq) ▸ List.mem_map_of_mem Prod.fst hxr
      simp [LocalStorageCacheLayer.lsGetItem, hfind]
    · have hcor2 : LocalStorageCacheLayer.lsGetItem ⟨rest⟩ key
          = some (LocalStorageCacheLayer.StoredVal.corrupt raw) := by
        simpa [LocalStorageCacheLayer.lsGetItem, List.find?_cons, h1] using hcor
      have htl := ih hnd2 hcor2
      simp only [LocalStorageCacheLayer.lsGetItem, LocalStorageCacheLayer.cleanup,
        List.filter_cons] at htl ⊢
      by_cases hp : (if LocalStorageCacheLayer.strStartsWith kv.1 LocalStorageCacheLayer.keyPref
          then match kv.2 with
               | LocalStorageCacheLayer.StoredVal.corrupt _ => false
               | LocalStorageCacheLayer.StoredVal.entry e => !(now > e.metadata.expiresAt)
          else true) = true
      · rw [if_pos hp]
        simpa [List.find?_cons, h1] using htl
      · rw [if_neg hp]
        exact htl

/-- Updating a heap cell changes exactly that address as prescribed. -/
theorem get?_updateAt_self {β : Type} :
    ∀ (l : List β) (i : Nat) (f : β → β) (v : β),
      l.get? i = some v → (CacheMetrics.updateAt l i f).get? i = some (f v) := by
  intro l
  induction l with
  | nil => intro i f v h; cases h
  | cons x rest ih =>
    intro i f v h
    cases i with
    | zero =>
      obtain rfl : x = v := Option.some.inj h
      rfl
    | succ n => exact ih n f v h

/-- Reading back the per-operation stats just written. -/
theorem statsOf_withStats (om : CacheMetrics.OperationMetrics) (o : CacheMetrics.OpKind)
    (s : CacheMetrics.OperationStats) :
    CacheMetrics.statsOf (CacheMetrics.withStats om o s) o = s := by
  cases o <;> rfl

/-- Sorting a two-element list compares the two elements once. -/
theorem mergeSort_pair {α : Type} (le : α → α → Bool) (a b : α) :
    [a, b].mergeSort le = if le a b then [a, b] else [b, a] := by
  rw [List.mergeSort]
  simp [List.splitInTwo, List.splitAt_eq, List.merge]

/-- Writing into one layer's store leaves every layer's configuration
fields unchanged. -/
theorem layerFields_setInLayer {α : Type} (s : AdvancedCache.CacheState α) (n : String)
    (e : AdvancedCache.CacheEntry α) :
    (AdvancedCache.setInLayer s n e).layers.map AdvancedCache.layerFields
      = s.layers.map AdvancedCache.layerFields := by
  simp only [AdvancedCache.setInLayer, List.map_map]
  apply List.map_congr_left
  intro l _
  simp only [Function.comp_apply]
  by_cases h : (l.name == n) = true
  · rw [if_pos h]; rfl
  · rw [if_neg h]

/-- The promotion fold leaves every layer's configuration fields
unchanged. -/
theorem layerFields_promoteFold {α : Type} (entry : AdvancedCache.CacheEntry α) :
    ∀ (L : List (AdvancedCache.LayerState α)) (s : AdvancedCache.CacheState α),
      ((L.foldl (fun s l =>
          if l.enabled then AdvancedCache.setInLayer s l.name entry else s) s).layers.map
        AdvancedCache.layerFields) = s.layers.map AdvancedCache.layerFields := by
  intro L
  induction L with
  | nil => intro s; rfl
  | cons l L ih =>
    intro s
    rw [List.foldl_cons]
    by_cases h : l.enabled
    · rw [if_pos h, ih, layerFields_setInLayer]
    · rw [if_neg h]; exact ih s

/-- Immediately after `setInLayer`, every layer bearing the written name
holds the written entry under its key. -/
theorem setInLayer_written {α : Type} (key : String) (e' : AdvancedCache.CacheEntry α)
    (hkey : e'.key = key) (s : AdvancedCache.CacheState α) (n : String) :
    ∀ l2 ∈ (AdvancedCache.setInLayer s n e').layers, l2.name = n →
      AdvancedCache.storeGet l2.store key = some e' := by
  intro l2 hmem hname
  simp only [AdvancedCache.setInLayer] at hmem
  obtain ⟨l0, _, rfl⟩ := List.mem_map.mp hmem
  by_cases h : l0.name == n
  · rw [if_pos h]
    show AdvancedCache.storeGet (AdvancedCache.storeSet l0.store e') key = some e'
    rw [← hkey]
    exact storeGet_storeSet_self l0.store e'
  · rw [if_neg h] at hname ⊢
    exact absurd (by simp [hname]) h

/-- Layers already holding the written entry keep holding it through any
further `setInLayer` of the same entry, and so through the whole
promotion fold. -/
theorem promote_fold_written {α : Type} (key : String) (e' : AdvancedCache.CacheEntry α)
    (hkey : e'.key = key) (n : String) :
    ∀ (L : List (AdvancedCache.LayerState α)) (s : AdvancedCache.CacheState α),
      (∀ l2 ∈ s.layers, l2.name = n → AdvancedCache.storeGet l2.store key = some e') →
      ∀ l2 ∈ (L.foldl (fun s l =>
          if l.enabled then AdvancedCache.setInLayer s l.name e' else s) s).layers,
        l2.name = n → AdvancedCache.storeGet l2.store key = some e' := by
  intro L
  induction L with
  | nil => intro s hs; exact hs
  | cons l L ih =>
    intro s hs
    rw [List.foldl_cons]
    by_cases h : l.enabled
    · rw [if_pos h]
      apply ih
      intro l2 hmem hname
      simp only [AdvancedCache.setInLayer] at hmem
      obtain ⟨l0, hl0, rfl⟩ := List.mem_map.mp hmem
      by_cases h2 : l0.name == l.name
      · rw [if_pos h2]
        show AdvancedCache.storeGet (AdvancedCache.storeSet l0.store e') key = some e'
        rw [← hkey]
        exact storeGet_storeSet_self l0.store e'
      · rw [if_neg h2] at hname ⊢
        exact hs l0 hl0 hname
    · rw [if_neg h]
      exact ih s hs

/-- Every layer whose name occurs among the enabled layers processed by
the promotion fold ends up holding the promoted entry under its key. -/
theorem promote_fold_coverage {α : Type} (key : String) (e' : AdvancedCache.CacheEntry α)
    (hkey : e'.key = key) :
    ∀ (L : List (AdvancedCache.LayerState α)) (s : AdvancedCache.CacheState α),
      ∀ l2 ∈ (L.foldl (fun s l =>
          if l.enabled then AdvancedCache.setInLayer s l.name e' else s) s).layers,
        l2.name ∈ (L.filter (fun x => x.enabled)).map AdvancedCache.LayerState.name →
        AdvancedCache.storeGet l2.store key = some e' := by
  intro L
  induction L with
  | nil => intro s l2 _ hnames; simp at hnames
  | cons l L ih =>
    intro s l2 hmem hnames
    rw [List.foldl_cons] at hmem
    by_cases h : l.enabled
    · rw [if_pos h] at hmem
      rw [List.filter_cons_of_pos h, List.map_cons] at hnames
      rcases List.mem_cons.mp hnames with heq | hrest
      · exact promote_fold_written key e' hkey l.name L _
          (setInLayer_written key e' hkey s l.name) l2 hmem heq
      · exact ih (AdvancedCache.setInLayer s l.name e') l2 hmem hrest
    · rw [if_neg h] at hmem
      rw [List.filter_cons_of_neg h] at hnames
      exact ih s l2 hmem hnames

/-- Inversion of a successful store lookup: the binding is present and its
key matches. -/
theorem storeGet_some_inv {α : Type} (store : List (String × AdvancedCache.CacheEntry α))
    (key : String) (e : AdvancedCache.CacheEntry α)
    (h : AdvancedCache.storeGet store key = some e) :
    ∃ kv ∈ store, kv.2 = e ∧ kv.1 = key := by
  simp only [AdvancedCache.storeGet] at h
  cases hfind : store.find? (fun kv => kv.1 == key) with
  | none => rw [hfind] at h; cases h
  | some kv =>
    rw [hfind] at h
    have hp := List.find?_some hfind
    exact ⟨kv, List.mem_of_find?_eq_some hfind, Option.some.inj h,
      eq_of_beq (by simpa using hp)⟩

/-- A fold that adds `f a` per element sums the mapped list. -/
theorem foldl_add_map_sum {α : Type} (f : α → ℚ) :
    ∀ (l : List α) (init : ℚ),
      l.foldl (fun s a => s + f a) init = init + (l.map f).sum := by
  intro l
  induction l with
  | nil => intro init; simp
  | cons a rest ih =>
    intro init
    simp only [List.foldl_cons, ih, List.map_cons, List.sum_cons]
    ring

end Lemmas

open ChatModel useMessageSearch useMessagePersistence AdvancedCache
open LocalStorageCacheLayer CacheMetrics Fixtures

/-- C6: on the one-session input `["My order is broken" (user), "Sorry to
hear that" (AI), "I need a refund" (user)]`, searching for "order" returns
exactly one result, referencing the first message, whose `matchedTerms`
include "order", with a context window of 0 preceding and 2 following
messages (clipped at the session start). -/
theorem c6_search_scenario :
    (executeSearch 0 [scenarioSession] scenarioFilters preState).searchResults.map
        (fun r => r.message) = [scenarioMsg1]
    ∧ (executeSearch 0 [scenarioSession] scenarioFilters preState).searchResults.map
        (fun r => r.matchedTerms.contains ("order".data)) = [true]
    ∧ (executeSearch 0 [scenarioSession] scenarioFilters preState).searchResults.map
        (fun r => r.context) = [([], [scenarioMsg2, scenarioMsg3])] := by
  have hu : (executeSearchUnsorted 0 [scenarioSession] scenarioFilters).length = 1 := by
    decide
  have hs : executeSearchResults 0 [scenarioSession] scenarioFilters
      = executeSearchUnsorted 0 [scenarioSession] scenarioFilters :=
    mergeSort_of_length_one _ _ hu
  have hq : ¬(trimStr scenarioFilters.query = []) := by decide
  refine ⟨?_, ?_, ?_⟩ <;>
    simp only [executeSearch, if_neg hq, hs] <;> decide

/-- C10: a query that is empty or whitespace-only makes `executeSearch`
return immediately: the result list is emptied, the search statistics are
left unchanged, and no session is examined (the outcome does not depend
on the session list at all). -/
theorem c10_blank_query_noop (now : Int) (sessions sessions2 : List ChatSession)
    (filters : SearchFilters) (st : SearchState)
    (h : ∀ c ∈ filters.query, isWs c = true) :
    executeSearch now sessions filters st = { st with searchResults := [] }
    ∧ executeSearch now sessions filters st = executeSearch now sessions2 filters st := by
  have htrim : trimStr filters.query = [] := by
    have h1 : filters.query.dropWhile isWs = [] := by
      rw [List.dropWhile_eq_nil_iff]
      exact h
    simp [trimStr, h1]
  constructor <;> simp [executeSearch, htrim]

/-- Witness for C10 at the whitespace query `" \t"` and a non-trivial
prior state. -/
theorem c10_blank_query_noop_witness :
    (∀ c ∈ blankFilters.query, isWs c = true)
    ∧ executeSearch 5 [scenarioSession] blankFilters preState
      = { preState with searchResults := [] } :=
  ⟨by decide,
   (c10_blank_query_noop 5 [scenarioSession] [] blankFilters preState (by decide)).1⟩

/-- C5: for every message and token lists, the relevance score computed by
the code equals the spec's formula: +10 per query token that is a literal
substring of the lowercased message, +5 per occurrence of each matched
term among the message's own tokens (lowercase word tokens of length >
2), then the compounding multipliers 1.2 (length < 100), 1.5 (length <
50), 1.1 (user-authored) and 1.1 (less than 7 days old). -/
theorem c5_relevance_formula (now : Int) (message : ChatMessageType)
    (queryTokens matchedTerms : List Str) :
    calculateRelevanceScore now message queryTokens matchedTerms
      = specRelevanceScore now message queryTokens matchedTerms := by
  have h4 : ((now - message.timestamp : Int) < 7 * (1000 * 60 * 60 * 24))
      ↔ (((now - message.timestamp : Int) : ℚ) / (1000 * 60 * 60 * 24) < 7) := by
    rw [div_lt_iff₀ (by norm_num : (0 : ℚ) < 1000 * 60 * 60 * 24)]
    constructor <;> intro h <;> exact_mod_cast h
  simp only [calculateRelevanceScore, specRelevanceScore, specTokenize, tokenizeText,
    foldl_if_const_add, foldl_add_map_sum, List.countP_eq_length_filter,
    List.sum_map_mul_right, h4]
  split_ifs <;> ring

/-- C9: every persistence mutation (`createSession`, `saveMessage`,
`deleteSession`) funnels its session list through `saveSessions`, whose
output (written to storage and exposed as the session list) holds at most
50 sessions, ordered most recently updated first; the sessions dropped
beyond the cap all have `updatedAt` no greater than every retained
session, so exactly the 50 most recently updated are kept. -/
theorem c9_session_cap (l : List ChatModel.ChatSession) :
    (saveSessions l).length = min MAX_SESSIONS l.length
    ∧ (saveSessions l).Pairwise (fun a b => b.updatedAt ≤ a.updatedAt)
    ∧ (saveSessions l ++ droppedSessions l).Perm l
    ∧ (droppedSessions l).Forall (fun b =>
        (saveSessions l).Forall (fun a => b.updatedAt ≤ a.updatedAt))
    ∧ (∀ now newId title sessions, createSession now newId title sessions
        = saveSessions ({ id := newId, title := title, messages := [],
                          createdAt := now, updatedAt := now } :: sessions))
    ∧ (∀ now msg cur sessions, saveMessage now msg cur sessions
        = saveSessions (sessions.map (fun s =>
            if s.id = cur.id then
              { cur with messages := cur.messages ++ [msg], updatedAt := now }
            else s)))
    ∧ (∀ sid sessions, deleteSession sid sessions
        = saveSessions (sessions.filter (fun s => ¬(s.id = sid)))) := by
  have htrans : ∀ a b c : ChatModel.ChatSession,
      byUpdatedDesc a b → byUpdatedDesc b c → byUpdatedDesc a c := by
    intro a b c hab hbc
    simp only [byUpdatedDesc, decide_eq_true_eq] at *
    exact le_trans hbc hab
  have htotal : ∀ a b : ChatModel.ChatSession,
      byUpdatedDesc a b || byUpdatedDesc b a := by
    intro a b
    simp only [byUpdatedDesc, Bool.or_eq_true, decide_eq_true_eq]
    exact le_total b.updatedAt a.updatedAt
  have hsorted : (l.mergeSort byUpdatedDesc).Pairwise (fun a b => byUpdatedDesc a b) :=
    List.sorted_mergeSort htrans htotal l
  have hsplit : saveSessions l ++ droppedSessions l = l.mergeSort byUpdatedDesc :=
    List.take_append_drop _ _
  refine ⟨?_, ?_, ?_, ?_, ?_, ?_, ?_⟩
  · simp [saveSessions, List.length_take]
  · have h1 : (saveSessions l).Pairwise (fun a b => byUpdatedDesc a b) :=
      hsorted.sublist (List.take_sublist _ _)
    exact h1.imp (fun h => by simpa [byUpdatedDesc, decide_eq_true_eq] using h)
  · rw [hsplit]
    exact List.mergeSort_perm l _
  · have h2 : (saveSessions l ++ droppedSessions l).Pairwise (fun a b => byUpdatedDesc a b) := by
      rw [hsplit]; exact hsorted
    rw [List.forall_iff_forall_mem]
    intro b hb
    rw [List.forall_iff_forall_mem]
    intro a ha
    have h3 := (List.pairwise_append.mp h2).2.2 a ha b hb
    simpa [byUpdatedDesc, decide_eq_true_eq] using h3
  · intro now newId title sessions; rfl
  · intro now msg cur sessions; rfl
  · intro sid sessions; rfl

/-- C1 is false on the code: `set` builds every entry with `version: 1`
unconditionally (there is no prior-version lookup), so after
`set("k", 10)` and then `set("k", 20)` on a write-through cache the
stored version is 1 both times — the version after the second call is not
strictly greater than after the first. -/
theorem c1_version_counterexample :
    c1State1.layers.map (fun l => (AdvancedCache.storeGet l.store ("k")).map
        (fun e => e.metadata.version)) = [some 1]
    ∧ c1State2.layers.map (fun l => (AdvancedCache.storeGet l.store ("k")).map
        (fun e => e.metadata.version)) = [some 1]
    ∧ ¬((1 : Nat) > 1) :=
  ⟨by decide, by decide, by decide⟩

/-- C1 amended: `set` never increments a version counter; under the
write-through policy every enabled layer ends up holding the freshly
built entry for the key, whose `version` is the constant 1 (so repeated
`set` calls leave the stored version at 1 in every layer that received
the write). -/
theorem c1_version_always_one {α : Type} (calcSize : α → Nat)
    (st : AdvancedCache.CacheState α) (key : String) (v : α) (now : Int)
    (opts : AdvancedCache.SetOptions)
    (h : st.writePolicy = AdvancedCache.WritePolicy.writeThrough) :
    (∀ l ∈ (AdvancedCache.set calcSize st key v now opts).layers, l.enabled = true →
      AdvancedCache.storeGet l.store key
        = some (AdvancedCache.mkEntry calcSize st.defaultTTL now key v opts))
    ∧ (AdvancedCache.mkEntry calcSize st.defaultTTL now key v opts).metadata.version = 1 := by
  constructor
  · intro l hl hen
    simp only [AdvancedCache.set, h, AdvancedCache.writeToAllLayers] at hl
    obtain ⟨l0, hl0, rfl⟩ := List.mem_map.mp hl
    by_cases h0 : l0.enabled
    · simpa [h0] using storeGet_storeSet_self l0.store _
    · simp [h0] at hen
  · rfl

/-- Witness for the amended C1 at the concrete single-layer write-through
cache: the layer that received the write holds the version-1 entry. -/
theorem c1_version_always_one_witness :
    cache0.writePolicy = AdvancedCache.WritePolicy.writeThrough
    ∧ (∃ l, l ∈ (AdvancedCache.set exSize cache0 ("k") 7 0 {}).layers ∧ l.enabled = true
        ∧ AdvancedCache.storeGet l.store ("k")
          = some (AdvancedCache.mkEntry exSize cache0.defaultTTL 0 ("k") 7 {}))
    ∧ (AdvancedCache.mkEntry exSize cache0.defaultTTL 0 ("k") 7 {}).metadata.version = 1 := by
  have hthm := c1_version_always_one exSize cache0 ("k") 7 0 {} rfl
  refine ⟨rfl, ?_, hthm.2⟩
  refine ⟨{ name := ("memory"), priority := 1, enabled := true,
            store := [("k", AdvancedCache.mkEntry exSize cache0.defaultTTL 0 ("k") 7 {})] },
          ?_, rfl, ?_⟩
  · decide
  · exact hthm.1 _ (by decide) rfl

/-- C2 is false at the boundary: `isExpired` compares with a strict
`Date.now() > expiresAt`, so an entry whose `expiresAt` equals the
current time is served as a hit — `get` does return a value whose
`metadata.expiresAt ≤ now`. -/
theorem c2_ttl_counterexample :
    (AdvancedCache.get deadlineCache ("k") 5).1 = some (42, ("memory"))
    ∧ deadlineEntry.metadata.expiresAt = 5 := by
  have hp : AdvancedCache.getLayerPriority deadlineCache.layers = deadlineCache.layers :=
    getLayerPriority_singleton _ rfl
  constructor
  · simp only [AdvancedCache.get, hp]
    decide
  · rfl

/-- C2 amended: `get` never returns a value whose `metadata.expiresAt <
now`; the served entry always satisfies `now ≤ expiresAt`, but the
boundary case `expiresAt = now` is served as a hit (expiry is the strict
comparison `now > expiresAt`), not treated as a miss. -/
theorem c2_ttl_invariant {α : Type} (st : AdvancedCache.CacheState α)
    (key : String) (now : Int) (v : α) (layerName : String)
    (h : (AdvancedCache.get st key now).1 = some (v, layerName)) :
    ∃ l entry, l ∈ AdvancedCache.getLayerPriority st.layers
      ∧ AdvancedCache.storeGet l.store key = some entry
      ∧ entry.value = v ∧ layerName = l.name
      ∧ now ≤ entry.metadata.expiresAt := by
  cases hf : AdvancedCache.findHit key now (AdvancedCache.getLayerPriority st.layers) with
  | none => simp [AdvancedCache.get, hf] at h
  | some le =>
    obtain ⟨l, entry⟩ := le
    simp only [AdvancedCache.get, hf] at h
    obtain ⟨h1, h2, h3⟩ := findHit_spec key now _ l entry hf
    have hv : entry.value = v := by
      have := Option.some.inj h
      exact congrArg Prod.fst this
    have hn : layerName = l.name := by
      have := Option.some.inj h
      exact (congrArg Prod.snd this).symm
    refine ⟨l, entry, h1, h2, hv, hn, ?_⟩
    have : ¬(now > entry.metadata.expiresAt) := by
      simpa [AdvancedCache.isExpired] using h3
    omega

/-- C4: when replaying a committed transaction fails at some recorded
operation, `commitTransaction` re-raises the failure to the caller, the
transaction ends removed from the registry, and the cache state is the
result of reversing all recorded operations in strict reverse (LIFO)
order starting from the state reached at the failure — where reversing a
recorded `set` deletes its key, reversing a recorded `delete` is a no-op,
and a failed reversal step leaves its state unchanged without halting the
remaining reversals (`rollbackStep`). -/
theorem c4_commit_failure_rolls_back {α : Type} (calcSize : α → Nat)
    (regexTest : String → String → Bool) (now : Int)
    (a : AdvancedCache.AdvancedState α) (txid : String)
    (txn : AdvancedCache.CacheTransaction α)
    (pre post : List (AdvancedCache.CacheOp α)) (bad : AdvancedCache.CacheOp α)
    (stMid : AdvancedCache.CacheState α) (e : String)
    (hfind : AdvancedCache.txnLookup a.transactions txid = some txn)
    (hops : txn.operations = pre ++ bad :: post)
    (hpre : AdvancedCache.replayOps calcSize regexTest now a.cache pre = Except.ok stMid)
    (hbad : AdvancedCache.executeOperation calcSize regexTest now stMid bad
      = Except.error e) :
    AdvancedCache.commitTransaction calcSize regexTest now a txid
      = (Except.error e,
         { cache := AdvancedCache.rollbackOps stMid txn.operations
           transactions := AdvancedCache.txnErase a.transactions txid })
    ∧ AdvancedCache.txnLookup (AdvancedCache.txnErase a.transactions txid) txid = none
    ∧ (∀ (st : AdvancedCache.CacheState α) k v o,
        AdvancedCache.reverseOperation st (AdvancedCache.CacheOp.set k v o)
          = Except.ok (AdvancedCache.delete st k).2)
    ∧ (∀ (st : AdvancedCache.CacheState α) k,
        AdvancedCache.reverseOperation st (AdvancedCache.CacheOp.delete k) = Except.ok st)
    ∧ AdvancedCache.rollbackOps stMid txn.operations
        = txn.operations.reverse.foldl AdvancedCache.rollbackStep stMid := by
  have hreplay : AdvancedCache.replayOps calcSize regexTest now a.cache txn.operations
      = Except.error (e, stMid) := by
    rw [hops]
    exact replayOps_append_err calcSize regexTest now bad post e pre a.cache stMid hpre hbad
  refine ⟨?_, txnLookup_txnErase a.transactions txid, fun st k v o => rfl,
          fun st k => rfl, rfl⟩
  simp only [AdvancedCache.commitTransaction, hfind, hreplay,
    AdvancedCache.rollbackTransaction]

/-- Witness for C4: four recorded operations `[set k1, set k2, expire k3,
set k4]` whose third fails during replay; the commit rejects, the
registry is emptied, and the keys written by the first two operations are
gone from the rolled-back cache. -/
theorem c4_commit_failure_rolls_back_witness :
    AdvancedCache.txnLookup txnState.transactions ("t1") = some failingTxn
    ∧ failingTxn.operations
        = [AdvancedCache.CacheOp.set ("k1") 1 {}, AdvancedCache.CacheOp.set ("k2") 2 {}]
          ++ AdvancedCache.CacheOp.expire ("k3") :: [AdvancedCache.CacheOp.set ("k4") 4 {}]
    ∧ AdvancedCache.commitTransaction exSize exRegex 0 txnState ("t1")
      = (Except.error unknownOperationMsg,
         { cache := AdvancedCache.rollbackOps
             (AdvancedCache.set exSize (AdvancedCache.set exSize cache0 ("k1") 1 0 {}) ("k2") 2 0 {})
             failingTxn.operations
           transactions := AdvancedCache.txnErase txnState.transactions ("t1") })
    ∧ (AdvancedCache.rollbackOps
         (AdvancedCache.set exSize (AdvancedCache.set exSize cache0 ("k1") 1 0 {}) ("k2") 2 0 {})
         failingTxn.operations).layers.map
        (fun l => (AdvancedCache.storeGet l.store ("k1"), AdvancedCache.storeGet l.store ("k2")))
      = [(none, none)]
    ∧ AdvancedCache.txnErase txnState.transactions ("t1") = [] := by
  have h := c4_commit_failure_rolls_back exSize exRegex 0 txnState ("t1") failingTxn
    [AdvancedCache.CacheOp.set ("k1") 1 {}, AdvancedCache.CacheOp.set ("k2") 2 {}]
    [AdvancedCache.CacheOp.set ("k4") 4 {}] (AdvancedCache.CacheOp.expire ("k3"))
    (AdvancedCache.set exSize (AdvancedCache.set exSize cache0 ("k1") 1 0 {}) ("k2") 2 0 {})
    unknownOperationMsg (by decide) rfl rfl rfl
  exact ⟨by decide, rfl, h.1, by decide, by decide⟩

/-- C7: the localStorage adapter's failure semantics. Writing without a
medium failure stores directly (no cleanup); when the medium rejects the
first write the adapter runs `cleanup()` and retries exactly once; a
second rejection surfaces the error to the caller with the storage as the
cleanup left it. Reading a malformed payload returns a miss (`null`)
instead of raising, and the cleanup pass queues exactly the corrupted
(and expired) prefixed keys for removal, so the corrupted entry is gone
after it runs. -/
theorem c7_localstorage_failure_semantics {α : Type} (now : Int)
    (st : LocalStorageCacheLayer.LSState α) (entry : AdvancedCache.CacheEntry α)
    (k raw : String)
    (hnodup : (st.items.map Prod.fst).Nodup)
    (hcor : LocalStorageCacheLayer.lsGetItem st (LocalStorageCacheLayer.keyPref ++ k)
      = some (LocalStorageCacheLayer.StoredVal.corrupt raw)) :
    (∀ failSecond, LocalStorageCacheLayer.set false failSecond now st entry
      = (Except.ok (LocalStorageCacheLayer.lsPutItem st
           (LocalStorageCacheLayer.keyPref ++ entry.key)
           (LocalStorageCacheLayer.StoredVal.entry entry)),
         LocalStorageCacheLayer.lsPutItem st
           (LocalStorageCacheLayer.keyPref ++ entry.key)
           (LocalStorageCacheLayer.StoredVal.entry entry)))
    ∧ LocalStorageCacheLayer.set true false now st entry
      = (Except.ok (LocalStorageCacheLayer.lsPutItem
           (LocalStorageCacheLayer.cleanup now st)
           (LocalStorageCacheLayer.keyPref ++ entry.key)
           (LocalStorageCacheLayer.StoredVal.entry entry)),
         LocalStorageCacheLayer.lsPutItem (LocalStorageCacheLayer.cleanup now st)
           (LocalStorageCacheLayer.keyPref ++ entry.key)
           (LocalStorageCacheLayer.StoredVal.entry entry))
    ∧ LocalStorageCacheLayer.set true true now st entry
      = (Except.error (), LocalStorageCacheLayer.cleanup now st)
    ∧ LocalStorageCacheLayer.get st k = none
    ∧ LocalStorageCacheLayer.lsGetItem (LocalStorageCacheLayer.cleanup now st)
        (LocalStorageCacheLayer.keyPref ++ k) = none := by
  obtain ⟨items⟩ := st
  refine ⟨fun failSecond => rfl, rfl, rfl, ?_, ?_⟩
  · simp [LocalStorageCacheLayer.get, hcor, LocalStorageCacheLayer.parsePayload]
  · exact lsGetItem_cleanup_corrupt now (LocalStorageCacheLayer.keyPref ++ k) raw
      (strStartsWith_keyPref_append k) items hnodup hcor

/-- Witness for C7 at a store holding a corrupted payload under
`cache:k`: the read is a miss, a doubly-failing write surfaces its error
after the cleanup pass, and the cleanup pass removes the corrupted
entry. -/
theorem c7_localstorage_failure_semantics_witness :
    ((lsCorrupt.items.map Prod.fst).Nodup
      ∧ LocalStorageCacheLayer.lsGetItem lsCorrupt (LocalStorageCacheLayer.keyPref ++ ("k"))
        = some (LocalStorageCacheLayer.StoredVal.corrupt ("not json")))
    ∧ LocalStorageCacheLayer.get lsCorrupt ("k") = none
    ∧ LocalStorageCacheLayer.set true true 0 lsCorrupt deadlineEntry
      = (Except.error (), LocalStorageCacheLayer.cleanup 0 lsCorrupt)
    ∧ LocalStorageCacheLayer.lsGetItem (LocalStorageCacheLayer.cleanup 0 lsCorrupt)
        (LocalStorageCacheLayer.keyPref ++ ("k")) = none := by
  have hnodup : (lsCorrupt.items.map Prod.fst).Nodup := by decide
  have hcor : LocalStorageCacheLayer.lsGetItem lsCorrupt
      (LocalStorageCacheLayer.keyPref ++ ("k"))
      = some (LocalStorageCacheLayer.StoredVal.corrupt ("not json")) := by decide
  have h := c7_localstorage_failure_semantics 0 lsCorrupt deadlineEntry ("k") ("not json")
    hnodup hcor
  exact ⟨⟨hnodup, hcor⟩, h.2.2.2.1, h.2.2.1, h.2.2.2.2⟩

/-- C8 is false on the code: `getMetrics` returns `{ ...this.metrics }`,
a shallow copy that shares the nested `operations` object; recording one
`set` operation after taking a snapshot changes the snapshot's nested
set-operation count from 0 to 1. -/
theorem c8_metrics_snapshot_counterexample :
    (CacheMetrics.viewOps mInit.1 msnap).map (fun om => om.set.count) = some 0
    ∧ (CacheMetrics.viewOps mheap2 msnap).map (fun om => om.set.count) = some 1 :=
  ⟨rfl, rfl⟩

/-- C8 amended: `getMetrics` is a shallow copy — the snapshot's top-level
number fields are copies (later live-object updates such as `recordHit`'s
`hits++` do not change them), but the nested `operations` statistics
object is shared by reference, so a subsequent `updateOperationStats` is
visible through the already-returned snapshot (its per-operation count
grows by one). -/
theorem c8_metrics_shallow_copy (h : CacheMetrics.MetricsHeap)
    (m : CacheMetrics.MetricsObj) (t : ℚ) (o : CacheMetrics.OpKind)
    (om : CacheMetrics.OperationMetrics)
    (hview : CacheMetrics.viewOps h m = some om) :
    CacheMetrics.getMetrics m = m
    ∧ (CacheMetrics.getMetrics m).operationsAddr = m.operationsAddr
    ∧ CacheMetrics.viewOps (CacheMetrics.updateOperationStats h m o t false)
        (CacheMetrics.getMetrics m)
      = some (CacheMetrics.withStats om o
          (CacheMetrics.applyOpStats (CacheMetrics.statsOf om o) t false))
    ∧ (CacheMetrics.statsOf (CacheMetrics.withStats om o
        (CacheMetrics.applyOpStats (CacheMetrics.statsOf om o) t false)) o).count
      = (CacheMetrics.statsOf om o).count + 1
    ∧ (CacheMetrics.recordHit h m t).2.hits = m.hits + 1
    ∧ (CacheMetrics.getMetrics m).hits = m.hits := by
  refine ⟨rfl, rfl, ?_, ?_, rfl, rfl⟩
  · exact get?_updateAt_self h.opsObjs m.operationsAddr _ om hview
  · rw [statsOf_withStats]
    rfl

/-- Witness for the amended C8 on the freshly initialized metrics. -/
theorem c8_metrics_shallow_copy_witness :
    CacheMetrics.viewOps mInit.1 mInit.2 = some CacheMetrics.initOperationMetrics
    ∧ CacheMetrics.viewOps
        (CacheMetrics.updateOperationStats mInit.1 mInit.2 CacheMetrics.OpKind.set 5 false)
        (CacheMetrics.getMetrics mInit.2)
      = some (CacheMetrics.withStats CacheMetrics.initOperationMetrics CacheMetrics.OpKind.set
          (CacheMetrics.applyOpStats
            (CacheMetrics.statsOf CacheMetrics.initOperationMetrics CacheMetrics.OpKind.set)
            5 false)) := by
  have hv : CacheMetrics.viewOps mInit.1 mInit.2
      = some CacheMetrics.initOperationMetrics := rfl
  exact ⟨hv, (c8_metrics_shallow_copy mInit.1 mInit.2 5 CacheMetrics.OpKind.set
    CacheMetrics.initOperationMetrics hv).2.2.1⟩

/-- C3: promotion invariant. If `get` returns a hit served from the
enabled layer named `servedName` (the layer `lserv`, of priority p), then
immediately afterwards every enabled layer with priority strictly less
than p holds a live (non-expired) entry for the key with the served
value. Hypotheses: layer names are unique (they key the instance's layer
map) and stores are well-formed (every entry sits under its own key, as
`MemoryCacheLayer.set` keys the map by `entry.key`). -/
theorem c3_promotion_invariant {α : Type} (st : AdvancedCache.CacheState α)
    (key : String) (now : Int) (v : α) (servedName : String)
    (st' : AdvancedCache.CacheState α) (lserv : AdvancedCache.LayerState α)
    (hnodup : (st.layers.map AdvancedCache.LayerState.name).Nodup)
    (hwf : ∀ l ∈ st.layers, ∀ kv ∈ l.store, kv.2.key = kv.1)
    (hget : AdvancedCache.get st key now = (some (v, servedName), st'))
    (hservMem : lserv ∈ st.layers) (hservName : lserv.name = servedName) :
    ∀ l' ∈ st'.layers, l'.enabled = true → l'.priority < lserv.priority →
      ∃ entry, AdvancedCache.storeGet l'.store key = some entry
        ∧ entry.value = v ∧ AdvancedCache.isExpired now entry = false := by
  intro l' hl' hen hpri
  cases hf : AdvancedCache.findHit key now (AdvancedCache.getLayerPriority st.layers) with
  | none =>
    simp only [AdvancedCache.get, hf] at hget
    simp [Prod.ext_iff] at hget
  | some pair =>
    obtain ⟨l, entry0⟩ := pair
    simp only [AdvancedCache.get, hf] at hget
    have hfst := congrArg Prod.fst hget
    have hsnd := congrArg Prod.snd hget
    simp only at hfst hsnd
    have hv : (AdvancedCache.touch now entry0).value = v :=
      congrArg Prod.fst (Option.some.inj hfst)
    have hname : l.name = servedName :=
      congrArg Prod.snd (Option.some.inj hfst)
    obtain ⟨hlmem, hlstore, hlexp⟩ := findHit_spec key now _ l entry0 hf
    have hlfil : l ∈ st.layers.filter (fun x => x.enabled) := List.mem_mergeSort.mp hlmem
    have hlst : l ∈ st.layers := List.mem_of_mem_filter hlfil
    have hlen2 : l.enabled = true := by simpa using (List.mem_filter.mp hlfil).2
    have hls : l = lserv :=
      List.inj_on_of_nodup_map hnodup hlst hservMem (by rw [hname, hservName])
    obtain ⟨kv, hkvmem, hkv2, hkv1⟩ := storeGet_some_inv l.store key entry0 hlstore
    have hkey0 : entry0.key = key := by rw [← hkv2, hwf l hlst kv hkvmem, hkv1]
    set e' := AdvancedCache.touch now entry0 with he'def
    have hkeye : e'.key = key := hkey0
    set st1 := AdvancedCache.setInLayer st l.name e' with hst1def
    set ordered1 := AdvancedCache.getLayerPriority st1.layers with hord1def
    set i1 := ordered1.findIdx (fun l2 => l2.name == l.name) with hi1def
    have hst'fold : st' = (ordered1.take i1).foldl
        (fun s l => if l.enabled then AdvancedCache.setInLayer s l.name e' else s) st1 := by
      rw [← hsnd]
      rfl
    have hF1 : st1.layers.map AdvancedCache.layerFields
        = st.layers.map AdvancedCache.layerFields := layerFields_setInLayer st l.name e'
    have hF2 : st'.layers.map AdvancedCache.layerFields
        = st1.layers.map AdvancedCache.layerFields := by
      rw [hst'fold]
      exact layerFields_promoteFold e' (ordered1.take i1) st1
    have hmemF : AdvancedCache.layerFields l' ∈ st1.layers.map AdvancedCache.layerFields := by
      rw [← hF2]
      exact List.mem_map_of_mem _ hl'
    obtain ⟨l1, hl1mem, hl1f⟩ := List.mem_map.mp hmemF
    have hl1name : l1.name = l'.name := congrArg Prod.fst hl1f
    have hl1pri : l1.priority = l'.priority := congrArg (fun q => q.2.1) hl1f
    have hl1en : l1.enabled = true := by
      have h2 : l1.enabled = l'.enabled := congrArg (fun q => q.2.2) hl1f
      rw [h2, hen]
    have hl1in : l1 ∈ ordered1 :=
      List.mem_mergeSort.mpr (List.mem_filter.mpr ⟨hl1mem, by simpa using hl1en⟩)
    have htrans2 : ∀ a b c : AdvancedCache.LayerState α,
        decide (a.priority ≤ b.priority) → decide (b.priority ≤ c.priority) →
        decide (a.priority ≤ c.priority) := by
      intro a b c hab hbc
      simp only [decide_eq_true_eq] at *
      omega
    have htotal2 : ∀ a b : AdvancedCache.LayerState α,
        decide (a.priority ≤ b.priority) || decide (b.priority ≤ a.priority) := by
      intro a b
      simp only [Bool.or_eq_true, decide_eq_true_eq]
      omega
    have hsorted1 : ordered1.Pairwise
        (fun a b => decide (a.priority ≤ b.priority) = true) :=
      List.sorted_mergeSort htrans2 htotal2 _
    have hnames1 : st1.layers.map AdvancedCache.LayerState.name
        = st.layers.map AdvancedCache.LayerState.name := by
      rw [hst1def]
      simp only [AdvancedCache.setInLayer, List.map_map]
      apply List.map_congr_left
      intro x _
      simp only [Function.comp_apply]
      by_cases hx : (x.name == l.name) = true
      · rw [if_pos hx]
      · rw [if_neg hx]
    have hnodup1 : (st1.layers.map AdvancedCache.LayerState.name).Nodup := by
      rw [hnames1]
      exact hnodup
    have hordnames : (ordered1.map AdvancedCache.LayerState.name).Nodup := by
      have hpermn : List.Perm ordered1 (st1.layers.filter (fun x => x.enabled)) :=
        List.mergeSort_perm _ _
      have hsubn : ((st1.layers.filter (fun x => x.enabled)).map
          AdvancedCache.LayerState.name).Sublist
          (st1.layers.map AdvancedCache.LayerState.name) :=
        (List.filter_sublist _).map _
      exact ((hpermn.map _).nodup_iff).mpr (List.Nodup.sublist hsubn hnodup1)
    have hm0 : ({ l with store := AdvancedCache.storeSet l.store e' } :
        AdvancedCache.LayerState α) ∈ st1.layers := by
      have hb : (l.name == l.name) = true := by simp
      have hmm := List.mem_map_of_mem
        (fun x => if x.name == l.name
          then { x with store := AdvancedCache.storeSet x.store e' } else x) hlst
      dsimp only at hmm
      rw [if_pos hb] at hmm
      rw [hst1def]
      simp only [AdvancedCache.setInLayer]
      exact hmm
    have hm0in : ({ l with store := AdvancedCache.storeSet l.store e' } :
        AdvancedCache.LayerState α) ∈ ordered1 :=
      List.mem_mergeSort.mpr (List.mem_filter.mpr ⟨hm0, by simpa using hlen2⟩)
    have hex : ∃ x ∈ ordered1, (fun l2 => l2.name == l.name) x :=
      ⟨_, hm0in, by simp⟩
    have hi1len : i1 < ordered1.length := List.findIdx_lt_length_of_exists hex
    have hi1name : (ordered1.get ⟨i1, hi1len⟩).name = l.name := by
      have hp := @List.findIdx_getElem _ (fun l2 => l2.name == l.name) ordered1 hi1len
      exact eq_of_beq (by simpa using hp)
    have hi1pri : (ordered1.get ⟨i1, hi1len⟩).priority = l.priority := by
      have hmemi : (ordered1.get ⟨i1, hi1len⟩) ∈ ordered1 := List.get_mem _ _ _
      have heqm := List.inj_on_of_nodup_map hordnames hmemi hm0in hi1name
      have hp3 := congrArg AdvancedCache.LayerState.priority heqm
      exact hp3
    obtain ⟨j, hj, hjl⟩ := List.getElem_of_mem hl1in
    have hjlt : j < i1 := by
      rcases Nat.lt_trichotomy j i1 with h1 | h1 | h1
      · exact h1
      · exfalso
        subst h1
        have hp2 : l1.priority = l.priority := by
          rw [← hjl]
          exact hi1pri
        rw [hl1pri, hls] at hp2
        omega
      · exfalso
        have hpw := (List.pairwise_iff_getElem.mp hsorted1) i1 j hi1len hj h1
        rw [hjl] at hpw
        have hle : (ordered1.get ⟨i1, hi1len⟩).priority ≤ l1.priority := of_decide_eq_true hpw
        rw [hi1pri, hl1pri, hls] at hle
        omega
    have hl1take : l1 ∈ ordered1.take i1 := by
      have hjtake : j < (ordered1.take i1).length := by
        rw [List.length_take]
        omega
      have htk : (ordered1.take i1).get ⟨j, hjtake⟩ = l1 := by
        rw [List.get_eq_getElem, List.getElem_take]
        exact hjl
      rw [← htk]
      exact List.get_mem _ _ _
    have hcov : AdvancedCache.storeGet l'.store key = some e' := by
      apply promote_fold_coverage key e' hkeye (ordered1.take i1) st1 l'
      · rw [← hst'fold]
        exact hl'
      · refine List.mem_map.mpr ⟨l1, List.mem_filter.mpr ⟨hl1take, by simpa using hl1en⟩, ?_⟩
        rw [hl1name]
    refine ⟨e', hcov, hv, ?_⟩
    have : AdvancedCache.isExpired now e' = AdvancedCache.isExpired now entry0 := rfl
    rw [this, hlexp]

/-- Witness for C3: on the two-layer cache, the hit at the priority-2
layer is served with the stored value and the theorem's guarantee applies
to the resulting state. -/
theorem c3_promotion_invariant_witness :
    ((promoCache.layers.map AdvancedCache.LayerState.name).Nodup
     ∧ (∀ l ∈ promoCache.layers, ∀ kv ∈ l.store, kv.2.key = kv.1)
     ∧ AdvancedCache.get promoCache ("k") 4 = (some (9, ("localStorage")), promoPost)
     ∧ promoLayer2 ∈ promoCache.layers ∧ promoLayer2.name = ("localStorage"))
    ∧ (∀ l' ∈ promoPost.layers, l'.enabled = true → l'.priority < promoLayer2.priority →
        ∃ entry, AdvancedCache.storeGet l'.store ("k") = some entry
          ∧ entry.value = 9 ∧ AdvancedCache.isExpired 4 entry = false) := by
  have hnodup : (promoCache.layers.map AdvancedCache.LayerState.name).Nodup := by decide
  have hwf : ∀ l ∈ promoCache.layers, ∀ kv ∈ l.store, kv.2.key = kv.1 := by decide
  have hfil : promoCache.layers.filter (fun l => l.enabled) = [promoLayer1, promoLayer2] := by
    decide
  have hp : AdvancedCache.getLayerPriority promoCache.layers = [promoLayer1, promoLayer2] := by
    simp only [AdvancedCache.getLayerPriority]
    rw [hfil, mergeSort_pair]
    rw [if_pos (by decide)]
  have hfh : AdvancedCache.findHit ("k") 4 (AdvancedCache.getLayerPriority promoCache.layers)
      = some (promoLayer2, promoEntry) := by
    rw [hp]
    decide
  have hget : AdvancedCache.get promoCache ("k") 4 = (some (9, ("localStorage")), promoPost) := by
    simp only [AdvancedCache.get, hfh]
    rfl
  have hmem2 : promoLayer2 ∈ promoCache.layers := by decide
  exact ⟨⟨hnodup, hwf, hget, hmem2, rfl⟩,
    c3_promotion_invariant promoCache ("k") 4 9 ("localStorage") promoPost promoLayer2
      hnodup hwf hget hmem2 rfl⟩

/-- Witness for the amended C2: a hit served at t = 3 from the entry
expiring at t = 5 satisfies the guarantee. -/
theorem c2_ttl_invariant_witness :
    (AdvancedCache.get deadlineCache ("k") 3).1 = some (42, ("memory"))
    ∧ ∃ l entry, l ∈ AdvancedCache.getLayerPriority deadlineCache.layers
      ∧ AdvancedCache.storeGet l.store ("k") = some entry
      ∧ entry.value = 42 ∧ ("memory") = l.name
      ∧ (3 : Int) ≤ entry.metadata.expiresAt := by
  have hp : AdvancedCache.getLayerPriority deadlineCache.layers = deadlineCache.layers :=
    getLayerPriority_singleton _ rfl
  have hget : (AdvancedCache.get deadlineCache ("k") 3).1 = some (42, ("memory")) := by
    simp only [AdvancedCache.get, hp]
    decide
  exact ⟨hget, c2_ttl_invariant deadlineCache ("k") 3 42 ("memory") hget⟩
